import Mathlib

/-!
Shallow embedding of the signal-computation core of `src/main.py`
(DeMark sequential counters, value-when-reset lookback, Wyckoff
breakout/momentum test, and the two scan loops), together with proofs
of the specification claims about them.

Closing prices are embedded as rationals (the Python code only
compares closes and, in one place, divides; no float-specific
behaviour enters the comparisons).  Counter arrays are lists of
integers, as in the Python lists.
-/

namespace Dashboard

/-- Builder for the sequential counter arrays of `compute_dm_signals`
(src/main.py lines 99-106): starting from `[0] * length`, the loop
`for i in range(4, length)` sets entry `i` to `prev + 1` when the
comparison of `close[i]` against `close[i - 4]` holds, else `0`.
`seqCounterAux upcmp close n` is the array after the first `n` entries
have been produced; entries `0..3` stay `0`. -/
def seqCounterAux (upcmp : ℚ → ℚ → Bool) (close : List ℚ) : ℕ → List ℤ
  | 0 => []
  | i + 1 =>
    let prev := seqCounterAux upcmp close i
    prev ++ [if 4 ≤ i then
               (if upcmp (close.getD i 0) (close.getD (i - 4) 0) then prev.getD (i - 1) 0 + 1 else 0)
             else 0]

/-- The `TD` (up) counter array: `TD[i] = TD[i-1] + 1 if close[i] > close[i-4] else 0`
(src/main.py line 105). -/
def TD (close : List ℚ) : List ℤ :=
  seqCounterAux (fun c c4 => decide (c4 < c)) close close.length

/-- The `TS` (down) counter array: `TS[i] = TS[i-1] + 1 if close[i] < close[i-4] else 0`
(src/main.py line 106). -/
def TS (close : List ℚ) : List ℤ :=
  seqCounterAux (fun c c4 => decide (c < c4)) close close.length

/-- Backward scan of `valuewhen_reset` (src/main.py lines 108-112):
`vwrGo arr j` examines indices `j, j-1, ..., 1` in that order and
returns `arr[k]` for the first `k` with `arr[k] < arr[k-1]`, else `0`. -/
def vwrGo (arr : List ℤ) : ℕ → ℤ
  | 0 => 0
  | j + 1 =>
    if arr.getD (j + 1) 0 < arr.getD j 0 then arr.getD (j + 1) 0 else vwrGo arr j

/-- `valuewhen_reset(arr, idx)` (src/main.py lines 108-112): scan
`j` from `idx - 1` down to `1`; return the first `arr[j]` with
`arr[j] < arr[j-1]`, else `0`. -/
def valuewhen_reset (arr : List ℤ) (idx : ℕ) : ℤ :=
  vwrGo arr (idx - 1)

/-- The oscillator arrays `TDUp` / `TDDn` of `compute_dm_signals`
(src/main.py lines 114-116): entries `0..3` stay `0`; for `i ≥ 4`,
entry `i` is `arr[i] - valuewhen_reset(arr, i)`. -/
def subtractReset (arr : List ℤ) : List ℤ :=
  (List.range arr.length).map
    (fun i => if 4 ≤ i then arr.getD i 0 - valuewhen_reset arr i else 0)

/-- `compute_dm_signals` (src/main.py lines 93-123): series shorter
than 20 yield all-false; otherwise the four flags test the last entry
of the `TDUp` / `TDDn` arrays against 9 and 13. -/
def compute_dm_signals (close : List ℚ) : Bool × Bool × Bool × Bool :=
  if close.length < 20 then (false, false, false, false)
  else
    let TDUp := subtractReset (TD close)
    let TDDn := subtractReset (TS close)
    (decide (TDUp.getD (close.length - 1) 0 = 9),
     decide (TDUp.getD (close.length - 1) 0 = 13),
     decide (TDDn.getD (close.length - 1) 0 = 9),
     decide (TDDn.getD (close.length - 1) 0 = 13))

/-- Maximum of a list of closes, as pandas `.max()` on the (always
nonempty) 30-bar window of `compute_wyckoff_signals`. -/
def listMax (l : List ℚ) : ℚ :=
  l.foldl max (l.headD 0)

/-- The `up_days` series of `compute_wyckoff_signals`
(src/main.py line 144): `(close.diff() > 0).astype(int)`; entry 0 is
`0` (the NaN produced by `diff` compares false against 0), entry `i ≥ 1`
is `1` when `close[i] > close[i-1]`, else `0`. -/
def upDays (close : List ℚ) : List ℤ :=
  (List.range close.length).map
    (fun i => if i = 0 then 0
              else if close.getD (i - 1) 0 < close.getD i 0 then 1 else 0)

/-- `compute_wyckoff_signals` (src/main.py lines 125-149): series
shorter than 35 yield `false`; otherwise require the last close to
exceed the maximum of the 30 preceding closes (`.iloc[-31:-1]`) and the
sum of the last five `up_days` flags to exceed 4. -/
def compute_wyckoff_signals (close : List ℚ) : Bool :=
  if close.length < 35 then false
  else
    let prev_30_max := listMax ((close.drop (close.length - 31)).take 30)
    let current_close := close.getLastD 0
    let is_breakout := decide (prev_30_max < current_close)
    let last_5_count := ((upDays close).drop (close.length - 5)).sum
    let is_trending := decide (4 < last_5_count)
    is_breakout && is_trending

/-- Lookup with default, modelling Python's `dict.get(key, default)` on
the ticker→sector / ticker→industry tables. -/
def mapGet (m : List (String × String)) (k : String) (dflt : String) : String :=
  match m.find? (fun p => p.1 == k) with
  | some p => p.2
  | none => dflt

/-- Membership test, modelling Python's `ticker in ticker_sector_map`. -/
def hasKey (m : List (String × String)) (k : String) : Bool :=
  m.any (fun p => p.1 == k)

/-- Increment of a sector tally, modelling `defaultdict(int)`'s
`counts[sector] += 1` (src/main.py lines 191, 196) on an association
list. -/
def incr : List (String × ℕ) → String → List (String × ℕ)
  | [], k => [(k, 1)]
  | p :: rest, k => if p.1 = k then (p.1, p.2 + 1) :: rest else p :: incr rest k

/-- Stable insertion into a sorted list, used to model Python's stable
`sorted`. -/
def insertLe {α : Type} (le : α → α → Bool) (a : α) : List α → List α
  | [] => [a]
  | b :: bs => if le a b then a :: b :: bs else b :: insertLe le a bs

/-- Stable sort, modelling Python's `sorted(..., key=...)`
(src/main.py lines 201-202 and 248). -/
def sortLe {α : Type} (le : α → α → Bool) (l : List α) : List α :=
  l.foldr (insertLe le) []

/-- A DeMark match record `(ticker, last_close, signal, industry)`
(src/main.py lines 190, 195). -/
abbrev DMRow : Type := String × ℚ × String × String

/-- The accumulated state of `scan_timeframe`: the two match buckets
and the two sector tallies (src/main.py lines 156-157). The
candle-date and printing side effects carry no claim and are omitted. -/
structure ScanOutput where
  tops : List DMRow
  bottoms : List DMRow
  topCounts : List (String × ℕ)
  botCounts : List (String × ℕ)

/-- Ticker ordering for the result buckets: `sorted(..., key=lambda x: x[0])`. -/
def dmRowLe (a b : DMRow) : Bool :=
  decide (a.1 ≤ b.1)

/-- The body of the per-ticker loop of `scan_timeframe`
(src/main.py lines 166-196): skip empty series, evaluate
`compute_dm_signals` on the series as fetched (the last bar is never
dropped), and append to the buckets / bump the tallies according to the
flags.  Sector and industry default to `"Unknown"`; for the
`"Sector"` timeframe label the industry column is read from the sector
map (line 186). -/
def processTicker (smap imap : List (String × String)) (label : String)
    (st : ScanOutput) (tk : String) (closes : List ℚ) : ScanOutput :=
  if closes.isEmpty then st
  else
    let last_close := closes.getLastD 0
    let s := compute_dm_signals closes
    let sector := mapGet smap tk "Unknown"
    let industry := if label = "Sector" then mapGet smap tk "Unknown" else mapGet imap tk "Unknown"
    let st1 :=
      if s.1 || s.2.1 then
        { st with
          tops := st.tops ++ [(tk, last_close, if s.2.1 then "DM13 Top" else "DM9 Top", industry)],
          topCounts := incr st.topCounts sector }
      else st
    if s.2.2.1 || s.2.2.2 then
      { st1 with
        bottoms := st1.bottoms ++ [(tk, last_close, if s.2.2.2 then "DM13 Bot" else "DM9 Bot", industry)],
        botCounts := incr st1.botCounts sector }
    else st1

/-- `scan_timeframe` (src/main.py lines 155-207) restricted to its
signal-relevant behaviour: fold the per-ticker loop over the fetched
`(ticker, closes)` pairs, then sort each bucket by ticker symbol. -/
def scan_timeframe (smap imap : List (String × String)) (label : String)
    (data : List (String × List ℚ)) : ScanOutput :=
  let st := data.foldl (fun st p => processTicker smap imap label st p.1 p.2)
    ⟨[], [], [], []⟩
  { st with tops := sortLe dmRowLe st.tops, bottoms := sortLe dmRowLe st.bottoms }

/-- A Wyckoff match record
`(ticker, last_close, sector, industry, pct_change)` (src/main.py line 242). -/
abbrev WRow : Type := String × ℚ × String × String × ℚ

/-- Return value of `scan_wyckoff_signals`: the cache-absent branch
returns the pair `[], "N/A"` (src/main.py line 219) while the normal
branch returns the bare list of matches (line 249); the two shapes are
kept distinct, as in the Python code. -/
inductive WyckoffReturn : Type where
  | cacheMissing : List WRow → String → WyckoffReturn
  | results : List WRow → WyckoffReturn

/-- The rows carried by either shape of `WyckoffReturn`. -/
def wyckoffRows : WyckoffReturn → List WRow
  | .cacheMissing l _ => l
  | .results l => l

/-- Result ordering of `scan_wyckoff_signals`:
`sorted(results, key=lambda x: (x[2], x[0]))` (src/main.py line 248). -/
def wRowLe (a b : WRow) : Bool :=
  decide (a.2.2.1 < b.2.2.1) || (a.2.2.1 == b.2.2.1 && decide (a.1 ≤ b.1))

/-- The body of the per-ticker loop of `scan_wyckoff_signals`
(src/main.py lines 226-245): skip tickers absent from the sector map
and empty series; when `compute_wyckoff_signals` fires, append the
match with `pct_change = (close[-1] - close[-2]) / close[-2] * 100`.
The division is numpy float division, which never raises; it is
embedded as ℚ division (total, with junk value 0 at a zero divisor
where numpy yields a non-finite float), so a zero `close[-2]` does not
remove the row. -/
def wyckoffStep (smap imap : List (String × String))
    (res : List WRow) (tk : String) (closes : List ℚ) : List WRow :=
  if ¬ hasKey smap tk then res
  else if closes.isEmpty then res
  else if compute_wyckoff_signals closes then
    let last_close := closes.getLastD 0
    let sector := mapGet smap tk "Unknown"
    let industry := mapGet imap tk "Unknown"
    let prev_close := closes.getD (closes.length - 2) 0
    let pct_change := ((last_close - prev_close) / prev_close) * 100
    res ++ [(tk, last_close, sector, industry, pct_change)]
  else res

/-- `scan_wyckoff_signals` (src/main.py lines 209-249): with no daily
cache, return the pair `([], "N/A")`; with a cache, fold the
per-ticker loop and sort by `(sector, ticker)`. -/
def scan_wyckoff_signals (smap imap : List (String × String))
    (cache : Option (List (String × List ℚ))) : WyckoffReturn :=
  match cache with
  | none => .cacheMissing [] "N/A"
  | some price_data =>
      .results (sortLe wRowLe
        (price_data.foldl (fun r p => wyckoffStep smap imap r p.1 p.2) []))

/-- Specification-side description of `ValueWhenReset` (spec §4.2),
stated in the spec's words for comparison with `valuewhen_reset`: the
result `r` is the first `arr[j]`, scanning `j` backward from `idx - 1`
down to `1`, with `arr[j] < arr[j-1]` (strict less-than; ties are not
resets), and `0` when no such `j` exists. -/
def vwrSpecResult (arr : List ℤ) (idx : ℕ) (r : ℤ) : Prop :=
  (∃ j, 1 ≤ j ∧ j < idx ∧ arr.getD j 0 < arr.getD (j - 1) 0 ∧
    (∀ k, j < k → k < idx → ¬ arr.getD k 0 < arr.getD (k - 1) 0) ∧ r = arr.getD j 0) ∨
  ((∀ j, 1 ≤ j → j < idx → ¬ arr.getD j 0 < arr.getD (j - 1) 0) ∧ r = 0)

end Dashboard

set_option maxRecDepth 10000

namespace Dashboard

lemma length_seqCounterAux (f : ℚ → ℚ → Bool) (c : List ℚ) (n : ℕ) :
    (seqCounterAux f c n).length = n := by
  induction n with
  | zero => rfl
  | succ i ih => simp [seqCounterAux, ih]

lemma seqCounterAux_getD_stable (f : ℚ → ℚ → Bool) (c : List ℚ) {m n j : ℕ}
    (hmn : m ≤ n) (hj : j < m) :
    (seqCounterAux f c n).getD j 0 = (seqCounterAux f c m).getD j 0 := by
  induction n with
  | zero => omega
  | succ i ih =>
    rcases Nat.lt_or_ge m (i + 1) with hlt | hge
    · have hmi : m ≤ i := by omega
      rw [seqCounterAux, List.getD_append _ _ _ _ (by rw [length_seqCounterAux]; omega)]
      exact ih hmi
    · have : m = i + 1 := by omega
      rw [this]

lemma seqCounterAux_getD_succ (f : ℚ → ℚ → Bool) (c : List ℚ) (i : ℕ) :
    (seqCounterAux f c (i + 1)).getD i 0 =
      if 4 ≤ i then
        (if f (c.getD i 0) (c.getD (i - 4) 0) then (seqCounterAux f c i).getD (i - 1) 0 + 1 else 0)
      else 0 := by
  rw [seqCounterAux,
    List.getD_append_right _ _ _ _ (by rw [length_seqCounterAux])]
  rw [length_seqCounterAux]
  simp

lemma seqCounterAux_getD (f : ℚ → ℚ → Bool) (c : List ℚ) {n i : ℕ} (hi : i < n) :
    (seqCounterAux f c n).getD i 0 =
      if 4 ≤ i then
        (if f (c.getD i 0) (c.getD (i - 4) 0) then (seqCounterAux f c n).getD (i - 1) 0 + 1 else 0)
      else 0 := by
  rw [seqCounterAux_getD_stable f c (Nat.succ_le_of_lt hi) (Nat.lt_succ_self i),
    seqCounterAux_getD_succ]
  by_cases h4 : 4 ≤ i
  · have h2 : (seqCounterAux f c i).getD (i - 1) 0 = (seqCounterAux f c n).getD (i - 1) 0 :=
      (seqCounterAux_getD_stable f c (Nat.le_of_lt hi) (by omega)).symm
    rw [h2]
  · simp [h4]

lemma length_TD (close : List ℚ) : (TD close).length = close.length :=
  length_seqCounterAux _ close close.length

lemma length_TS (close : List ℚ) : (TS close).length = close.length :=
  length_seqCounterAux _ close close.length

lemma TD_getD (close : List ℚ) {i : ℕ} (hi : i < close.length) :
    (TD close).getD i 0 =
      if 4 ≤ i then
        (if close.getD (i - 4) 0 < close.getD i 0 then (TD close).getD (i - 1) 0 + 1 else 0)
      else 0 := by
  have h := seqCounterAux_getD (fun c c4 => decide (c4 < c)) close hi
  simpa [TD] using h

lemma TS_getD (close : List ℚ) {i : ℕ} (hi : i < close.length) :
    (TS close).getD i 0 =
      if 4 ≤ i then
        (if close.getD i 0 < close.getD (i - 4) 0 then (TS close).getD (i - 1) 0 + 1 else 0)
      else 0 := by
  have h := seqCounterAux_getD (fun c c4 => decide (c < c4)) close hi
  simpa [TS] using h

lemma getD_nonneg {l : List ℤ} (h : ∀ x ∈ l, 0 ≤ x) (j : ℕ) : 0 ≤ l.getD j 0 := by
  by_cases hj : j < l.length
  · rw [List.getD_eq_getElem _ _ hj]
    exact h _ (List.getElem_mem hj)
  · rw [List.getD_eq_default _ _ (Nat.le_of_not_lt hj)]

lemma seqCounterAux_mem_nonneg (f : ℚ → ℚ → Bool) (c : List ℚ) (n : ℕ) :
    ∀ x ∈ seqCounterAux f c n, 0 ≤ x := by
  induction n with
  | zero => simp [seqCounterAux]
  | succ i ih =>
    intro x hx
    rw [seqCounterAux, List.mem_append] at hx
    rcases hx with hx | hx
    · exact ih x hx
    · have hx' : x = if 4 ≤ i then
          (if f (c.getD i 0) (c.getD (i - 4) 0) then
            (seqCounterAux f c i).getD (i - 1) 0 + 1 else 0)
          else 0 := by simpa using hx
      have hd : 0 ≤ (seqCounterAux f c i).getD (i - 1) 0 := getD_nonneg ih (i - 1)
      rw [hx']
      split
      · split
        · omega
        · exact le_refl 0
      · exact le_refl 0

lemma vwrGo_nonneg {arr : List ℤ} (h : ∀ x ∈ arr, 0 ≤ x) (j : ℕ) : 0 ≤ vwrGo arr j := by
  induction j with
  | zero => exact le_refl 0
  | succ j ih =>
    rw [vwrGo]
    split
    · exact getD_nonneg h (j + 1)
    · exact ih

lemma valuewhen_reset_nonneg {arr : List ℤ} (h : ∀ x ∈ arr, 0 ≤ x) (idx : ℕ) :
    0 ≤ valuewhen_reset arr idx :=
  vwrGo_nonneg h (idx - 1)

lemma vwrGo_spec (arr : List ℤ) (j : ℕ) : vwrSpecResult arr (j + 1) (vwrGo arr j) := by
  induction j with
  | zero =>
    right
    exact ⟨fun k hk1 hk2 => absurd (by omega : k < 1) (by omega), rfl⟩
  | succ j ih =>
    rw [vwrGo]
    by_cases hr : arr.getD (j + 1) 0 < arr.getD j 0
    · rw [if_pos hr]
      left
      refine ⟨j + 1, by omega, by omega, by simpa using hr, ?_, rfl⟩
      intro k hk1 hk2
      omega
    · rw [if_neg hr]
      rcases ih with ⟨k, h1, h2, h3, h4, h5⟩ | ⟨h1, h2⟩
      · left
        refine ⟨k, h1, by omega, h3, ?_, h5⟩
        intro m hm1 hm2
        rcases Nat.lt_or_ge m (j + 1) with hm | hm
        · exact h4 m hm1 hm
        · have : m = j + 1 := by omega
          rw [this]
          simpa using hr
      · right
        refine ⟨?_, h2⟩
        intro m hm1 hm2
        rcases Nat.lt_or_ge m (j + 1) with hm | hm
        · exact h1 m hm1 hm
        · have : m = j + 1 := by omega
          rw [this]
          simpa using hr

/-- Claim C3: `valuewhen_reset(arr, idx)` scans `j` backward from
`idx - 1` down to `1` and returns the first `arr[j]` with
`arr[j] < arr[j-1]` (strict less-than; ties do not count), returning
`0` when no such `j` exists; in particular it returns `0` on any
strictly monotonically increasing array. -/
theorem claim_C3 (arr : List ℤ) (idx : ℕ) (hidx : idx ≤ arr.length) :
    vwrSpecResult arr idx (valuewhen_reset arr idx) ∧
    ((∀ p, p + 1 < arr.length → arr.getD p 0 < arr.getD (p + 1) 0) →
      valuewhen_reset arr idx = 0) := by
  constructor
  · show vwrSpecResult arr idx (vwrGo arr (idx - 1))
    cases idx with
    | zero =>
      right
      exact ⟨fun j h1 h2 => absurd h2 (by omega), rfl⟩
    | succ m => simpa using vwrGo_spec arr m
  · intro hmono
    have hspec := vwrGo_spec arr (idx - 1)
    rcases hspec with ⟨j, h1, h2, h3, _h4, h5⟩ | ⟨_h1, h2⟩
    · exfalso
      have hj : j < arr.length := by omega
      have := hmono (j - 1) (by omega)
      have hj1 : j - 1 + 1 = j := by omega
      rw [hj1] at this
      exact absurd h3 (not_lt.mpr (le_of_lt this))
    · show vwrGo arr (idx - 1) = 0
      exact h2

/-- Claim C3 witness: the theorem applied to the concrete array
`[0, 1, 2, 1, 2]` at index `5`. -/
theorem claim_C3_witness :
    (5 ≤ ([0, 1, 2, 1, 2] : List ℤ).length) ∧
    (vwrSpecResult [0, 1, 2, 1, 2] 5 (valuewhen_reset [0, 1, 2, 1, 2] 5) ∧
      ((∀ p, p + 1 < ([0, 1, 2, 1, 2] : List ℤ).length →
          ([0, 1, 2, 1, 2] : List ℤ).getD p 0 < ([0, 1, 2, 1, 2] : List ℤ).getD (p + 1) 0) →
        valuewhen_reset [0, 1, 2, 1, 2] 5 = 0)) :=
  ⟨by decide, claim_C3 [0, 1, 2, 1, 2] 5 (by decide)⟩

/-- Claim C2: for series accepted by the DeMark evaluator
(length ≥ 20), the up/down counters are `0` at indices `0..3` and obey
the 4-bar-lookback recurrences at every index `i ≥ 4`. -/
theorem claim_C2 (close : List ℚ) (h20 : 20 ≤ close.length) :
    (∀ i, i < 4 → (TD close).getD i 0 = 0 ∧ (TS close).getD i 0 = 0) ∧
    (∀ i, 4 ≤ i → i < close.length →
      ((TD close).getD i 0 =
        if close.getD (i - 4) 0 < close.getD i 0 then (TD close).getD (i - 1) 0 + 1 else 0) ∧
      ((TS close).getD i 0 =
        if close.getD i 0 < close.getD (i - 4) 0 then (TS close).getD (i - 1) 0 + 1 else 0)) := by
  constructor
  · intro i hi
    have hlen : i < close.length := by omega
    constructor
    · rw [TD_getD close hlen, if_neg (by omega)]
    · rw [TS_getD close hlen, if_neg (by omega)]
  · intro i h4 hlen
    constructor
    · rw [TD_getD close hlen, if_pos h4]
    · rw [TS_getD close hlen, if_pos h4]

/-- Claim C2 witness: the theorem applied to a concrete 20-bar series,
read off at indices `2` and `11`. -/
theorem claim_C2_witness :
    (20 ≤ ([0, 0, 0, 0, 0, 0, 0, 0, 0, 0, 0, 1, 2, 3, 4, 5, 6, 7, 8, 9] : List ℚ).length) ∧
    (TD [0, 0, 0, 0, 0, 0, 0, 0, 0, 0, 0, 1, 2, 3, 4, 5, 6, 7, 8, 9]).getD 2 0 = 0 ∧
    ((TD [0, 0, 0, 0, 0, 0, 0, 0, 0, 0, 0, 1, 2, 3, 4, 5, 6, 7, 8, 9]).getD 11 0 =
      if ([0, 0, 0, 0, 0, 0, 0, 0, 0, 0, 0, 1, 2, 3, 4, 5, 6, 7, 8, 9] : List ℚ).getD (11 - 4) 0 <
          ([0, 0, 0, 0, 0, 0, 0, 0, 0, 0, 0, 1, 2, 3, 4, 5, 6, 7, 8, 9] : List ℚ).getD 11 0 then
        (TD [0, 0, 0, 0, 0, 0, 0, 0, 0, 0, 0, 1, 2, 3, 4, 5, 6, 7, 8, 9]).getD (11 - 1) 0 + 1
      else 0) :=
  ⟨by decide,
   ((claim_C2 [0, 0, 0, 0, 0, 0, 0, 0, 0, 0, 0, 1, 2, 3, 4, 5, 6, 7, 8, 9] (by decide)).1 2
      (by decide)).1,
   ((claim_C2 [0, 0, 0, 0, 0, 0, 0, 0, 0, 0, 0, 1, 2, 3, 4, 5, 6, 7, 8, 9] (by decide)).2 11
      (by decide) (by decide)).1⟩

/-- Claim C9 counterexample: on `[10, 11, 12, 13, 9]` the up counter
produced by the 4-bar-lookback recurrence is identically zero — it
does not strictly increase anywhere (already its first step fails to
increase), so it never holds a positive value to reset on the down
bar. -/
theorem claim_C9_counterexample :
    TD [10, 11, 12, 13, 9] = [0, 0, 0, 0, 0] ∧
    ¬ (TD [10, 11, 12, 13, 9]).getD 0 0 < (TD [10, 11, 12, 13, 9]).getD 1 0 ∧
    ¬ (TD [10, 11, 12, 13, 9]).getD 3 0 < (TD [10, 11, 12, 13, 9]).getD 4 0 := by
  decide

/-- Claim C9 (amended): on `[10, 11, 12, 13, 9]` the up counter defined
by the 4-bar lookback is `[0, 0, 0, 0, 0]` — indices `0..3` are zero
for lack of 4-bar-back history, and index 4 is zero because
`close[4] = 9` does not exceed `close[0] = 10`; the counter never
increases on this series. -/
theorem claim_C9 : TD [10, 11, 12, 13, 9] = [0, 0, 0, 0, 0] := by decide

lemma getD_map_range (f : ℕ → ℤ) {n i : ℕ} (h : i < n) :
    (((List.range n).map f)).getD i 0 = f i := by
  rw [List.getD_eq_getElem _ _ (by simpa using h)]
  simp

lemma subtractReset_getD (arr : List ℤ) {i : ℕ} (hi : i < arr.length) :
    (subtractReset arr).getD i 0 =
      if 4 ≤ i then arr.getD i 0 - valuewhen_reset arr i else 0 := by
  rw [subtractReset, getD_map_range _ hi]

lemma compute_dm_eq (close : List ℚ) (h : 20 ≤ close.length) :
    compute_dm_signals close =
      (decide ((TD close).getD (close.length - 1) 0 -
          valuewhen_reset (TD close) (close.length - 1) = 9),
       decide ((TD close).getD (close.length - 1) 0 -
          valuewhen_reset (TD close) (close.length - 1) = 13),
       decide ((TS close).getD (close.length - 1) 0 -
          valuewhen_reset (TS close) (close.length - 1) = 9),
       decide ((TS close).getD (close.length - 1) 0 -
          valuewhen_reset (TS close) (close.length - 1) = 13)) := by
  have hn : ¬ close.length < 20 := by omega
  have h4 : 4 ≤ close.length - 1 := by omega
  have hltD : close.length - 1 < (TD close).length := by rw [length_TD]; omega
  have hltS : close.length - 1 < (TS close).length := by rw [length_TS]; omega
  rw [compute_dm_signals, if_neg hn]
  dsimp only
  rw [subtractReset_getD _ hltD, subtractReset_getD _ hltS, if_pos h4, if_pos h4]

/-- Claim C1: `compute_dm_signals` returns all four flags false on
series shorter than 20; on longer series it builds the up/down
counters, subtracts each counter's value-when-reset at the last index,
and sets exactly the flags `TDUp[last] = 9 / 13` (tops) and
`TDDn[last] = 9 / 13` (bottoms), inspecting only the last index. -/
theorem claim_C1 (close : List ℚ) :
    (close.length < 20 → compute_dm_signals close = (false, false, false, false)) ∧
    (20 ≤ close.length →
      compute_dm_signals close =
        (decide ((TD close).getD (close.length - 1) 0 -
            valuewhen_reset (TD close) (close.length - 1) = 9),
         decide ((TD close).getD (close.length - 1) 0 -
            valuewhen_reset (TD close) (close.length - 1) = 13),
         decide ((TS close).getD (close.length - 1) 0 -
            valuewhen_reset (TS close) (close.length - 1) = 9),
         decide ((TS close).getD (close.length - 1) 0 -
            valuewhen_reset (TS close) (close.length - 1) = 13))) := by
  constructor
  · intro h
    rw [compute_dm_signals, if_pos h]
  · intro h
    exact compute_dm_eq close h

/-- Claim C1 witness: the short-series branch on the empty series and
the long-series branch on a concrete 20-bar series. -/
theorem claim_C1_witness :
    compute_dm_signals [] = (false, false, false, false) ∧
    compute_dm_signals [0, 0, 0, 0, 0, 0, 0, 0, 0, 0, 0, 1, 2, 3, 4, 5, 6, 7, 8, 9] =
      (decide ((TD [0, 0, 0, 0, 0, 0, 0, 0, 0, 0, 0, 1, 2, 3, 4, 5, 6, 7, 8, 9]).getD
          (([0, 0, 0, 0, 0, 0, 0, 0, 0, 0, 0, 1, 2, 3, 4, 5, 6, 7, 8, 9] : List ℚ).length - 1) 0 -
          valuewhen_reset (TD [0, 0, 0, 0, 0, 0, 0, 0, 0, 0, 0, 1, 2, 3, 4, 5, 6, 7, 8, 9])
            (([0, 0, 0, 0, 0, 0, 0, 0, 0, 0, 0, 1, 2, 3, 4, 5, 6, 7, 8, 9] : List ℚ).length - 1) = 9),
       decide ((TD [0, 0, 0, 0, 0, 0, 0, 0, 0, 0, 0, 1, 2, 3, 4, 5, 6, 7, 8, 9]).getD
          (([0, 0, 0, 0, 0, 0, 0, 0, 0, 0, 0, 1, 2, 3, 4, 5, 6, 7, 8, 9] : List ℚ).length - 1) 0 -
          valuewhen_reset (TD [0, 0, 0, 0, 0, 0, 0, 0, 0, 0, 0, 1, 2, 3, 4, 5, 6, 7, 8, 9])
            (([0, 0, 0, 0, 0, 0, 0, 0, 0, 0, 0, 1, 2, 3, 4, 5, 6, 7, 8, 9] : List ℚ).length - 1) = 13),
       decide ((TS [0, 0, 0, 0, 0, 0, 0, 0, 0, 0, 0, 1, 2, 3, 4, 5, 6, 7, 8, 9]).getD
          (([0, 0, 0, 0, 0, 0, 0, 0, 0, 0, 0, 1, 2, 3, 4, 5, 6, 7, 8, 9] : List ℚ).length - 1) 0 -
          valuewhen_reset (TS [0, 0, 0, 0, 0, 0, 0, 0, 0, 0, 0, 1, 2, 3, 4, 5, 6, 7, 8, 9])
            (([0, 0, 0, 0, 0, 0, 0, 0, 0, 0, 0, 1, 2, 3, 4, 5, 6, 7, 8, 9] : List ℚ).length - 1) = 9),
       decide ((TS [0, 0, 0, 0, 0, 0, 0, 0, 0, 0, 0, 1, 2, 3, 4, 5, 6, 7, 8, 9]).getD
          (([0, 0, 0, 0, 0, 0, 0, 0, 0, 0, 0, 1, 2, 3, 4, 5, 6, 7, 8, 9] : List ℚ).length - 1) 0 -
          valuewhen_reset (TS [0, 0, 0, 0, 0, 0, 0, 0, 0, 0, 0, 1, 2, 3, 4, 5, 6, 7, 8, 9])
            (([0, 0, 0, 0, 0, 0, 0, 0, 0, 0, 0, 1, 2, 3, 4, 5, 6, 7, 8, 9] : List ℚ).length - 1) = 13)) :=
  ⟨(claim_C1 []).1 (by decide),
   (claim_C1 [0, 0, 0, 0, 0, 0, 0, 0, 0, 0, 0, 1, 2, 3, 4, 5, 6, 7, 8, 9]).2 (by decide)⟩

lemma TD_mem_nonneg (close : List ℚ) : ∀ x ∈ TD close, 0 ≤ x :=
  seqCounterAux_mem_nonneg _ close close.length

lemma TS_mem_nonneg (close : List ℚ) : ∀ x ∈ TS close, 0 ≤ x :=
  seqCounterAux_mem_nonneg _ close close.length

lemma TD_last_pos (close : List ℚ) (h : 20 ≤ close.length)
    (hpos : 0 < (TD close).getD (close.length - 1) 0) :
    close.getD (close.length - 1 - 4) 0 < close.getD (close.length - 1) 0 := by
  have hrec := TD_getD close (i := close.length - 1) (by omega)
  rw [if_pos (by omega : 4 ≤ close.length - 1)] at hrec
  by_contra hc
  rw [if_neg hc] at hrec
  omega

lemma TS_last_pos (close : List ℚ) (h : 20 ≤ close.length)
    (hpos : 0 < (TS close).getD (close.length - 1) 0) :
    close.getD (close.length - 1) 0 < close.getD (close.length - 1 - 4) 0 := by
  have hrec := TS_getD close (i := close.length - 1) (by omega)
  rw [if_pos (by omega : 4 ≤ close.length - 1)] at hrec
  by_contra hc
  rw [if_neg hc] at hrec
  omega

lemma TD_last_zero (close : List ℚ) (h : 20 ≤ close.length)
    (hc : ¬ close.getD (close.length - 1 - 4) 0 < close.getD (close.length - 1) 0) :
    (TD close).getD (close.length - 1) 0 = 0 := by
  have hrec := TD_getD close (i := close.length - 1) (by omega)
  rw [if_pos (by omega : 4 ≤ close.length - 1), if_neg hc] at hrec
  exact hrec

lemma TS_last_zero (close : List ℚ) (h : 20 ≤ close.length)
    (hc : ¬ close.getD (close.length - 1) 0 < close.getD (close.length - 1 - 4) 0) :
    (TS close).getD (close.length - 1) 0 = 0 := by
  have hrec := TS_getD close (i := close.length - 1) (by omega)
  rw [if_pos (by omega : 4 ≤ close.length - 1), if_neg hc] at hrec
  exact hrec

/-- The four DeMark flags never combine a top with a bottom: a positive
re-based up count at the last bar forces the down count there to be
non-positive, and symmetrically. -/
lemma dm_exclusive (close : List ℚ) :
    (((compute_dm_signals close).1 = true ∨ (compute_dm_signals close).2.1 = true) →
      (compute_dm_signals close).2.2.1 = false ∧ (compute_dm_signals close).2.2.2 = false) ∧
    (((compute_dm_signals close).2.2.1 = true ∨ (compute_dm_signals close).2.2.2 = true) →
      (compute_dm_signals close).1 = false ∧ (compute_dm_signals close).2.1 = false) := by
  by_cases h20 : close.length < 20
  · rw [compute_dm_signals, if_pos h20]
    constructor
    · rintro (h | h) <;> simp at h
    · rintro (h | h) <;> simp at h
  · have h : 20 ≤ close.length := by omega
    rw [compute_dm_eq close h]
    have hvwrD : 0 ≤ valuewhen_reset (TD close) (close.length - 1) :=
      valuewhen_reset_nonneg (TD_mem_nonneg close) _
    have hvwrS : 0 ≤ valuewhen_reset (TS close) (close.length - 1) :=
      valuewhen_reset_nonneg (TS_mem_nonneg close) _
    simp only [decide_eq_true_eq, decide_eq_false_iff_not]
    constructor
    · intro htop
      have hDpos : 0 < (TD close).getD (close.length - 1) 0 := by
        rcases htop with h9 | h13 <;> omega
      have hcmp := TD_last_pos close h hDpos
      have hS0 : (TS close).getD (close.length - 1) 0 = 0 :=
        TS_last_zero close h (not_lt.mpr (le_of_lt hcmp))
      constructor <;> omega
    · intro hbot
      have hSpos : 0 < (TS close).getD (close.length - 1) 0 := by
        rcases hbot with h9 | h13 <;> omega
      have hcmp := TS_last_pos close h hSpos
      have hD0 : (TD close).getD (close.length - 1) 0 = 0 :=
        TD_last_zero close h (not_lt.mpr (le_of_lt hcmp))
      constructor <;> omega

lemma length_insertLe {α : Type} (le : α → α → Bool) (a : α) (l : List α) :
    (insertLe le a l).length = l.length + 1 := by
  induction l with
  | nil => rfl
  | cons b bs ih =>
    rw [insertLe]
    split
    · simp
    · simp [ih]

lemma length_sortLe {α : Type} (le : α → α → Bool) (l : List α) :
    (sortLe le l).length = l.length := by
  induction l with
  | nil => rfl
  | cons a t ih =>
    show (insertLe le a (sortLe le t)).length = t.length + 1
    rw [length_insertLe, ih]

lemma mem_insertLe {α : Type} (le : α → α → Bool) (a x : α) (l : List α) :
    x ∈ insertLe le a l ↔ x = a ∨ x ∈ l := by
  induction l with
  | nil => simp [insertLe]
  | cons b bs ih =>
    rw [insertLe]
    split
    · simp
    · simp only [List.mem_cons, ih]
      tauto

lemma mem_sortLe {α : Type} (le : α → α → Bool) (x : α) (l : List α) :
    x ∈ sortLe le l ↔ x ∈ l := by
  induction l with
  | nil => simp [sortLe]
  | cons a t ih =>
    show x ∈ insertLe le a (sortLe le t) ↔ _
    rw [mem_insertLe, ih]
    simp

lemma incr_sum (c : List (String × ℕ)) (k : String) :
    ((incr c k).map Prod.snd).sum = (c.map Prod.snd).sum + 1 := by
  induction c with
  | nil => rfl
  | cons p rest ih =>
    rw [incr]
    split
    · simp only [List.map_cons, List.sum_cons]
      omega
    · simp only [List.map_cons, List.sum_cons, ih]
      omega

lemma processTicker_topNames (smap imap : List (String × String)) (label : String)
    (st : ScanOutput) (tk : String) (closes : List ℚ) :
    (processTicker smap imap label st tk closes).tops.map (fun r => r.1) =
      st.tops.map (fun r => r.1) ++
        (if closes.isEmpty = false ∧
            ((compute_dm_signals closes).1 = true ∨ (compute_dm_signals closes).2.1 = true) then
          [tk] else []) := by
  rw [processTicker]
  by_cases he : closes.isEmpty
  · rw [if_pos he]
    simp [he]
  · rw [if_neg he]
    dsimp only
    by_cases htop : (compute_dm_signals closes).1 || (compute_dm_signals closes).2.1
    · rw [if_pos htop]
      by_cases hbot : (compute_dm_signals closes).2.2.1 || (compute_dm_signals closes).2.2.2
      · rw [if_pos hbot]
        simp only [Bool.or_eq_true] at htop
        simp [he, htop]
      · rw [if_neg hbot]
        simp only [Bool.or_eq_true] at htop
        simp [he, htop]
    · rw [if_neg htop]
      by_cases hbot : (compute_dm_signals closes).2.2.1 || (compute_dm_signals closes).2.2.2
      · rw [if_pos hbot]
        simp only [Bool.or_eq_true, not_or] at htop
        simp [he, htop.1, htop.2]
      · rw [if_neg hbot]
        simp only [Bool.or_eq_true, not_or] at htop
        simp [he, htop.1, htop.2]

lemma processTicker_botNames (smap imap : List (String × String)) (label : String)
    (st : ScanOutput) (tk : String) (closes : List ℚ) :
    (processTicker smap imap label st tk closes).bottoms.map (fun r => r.1) =
      st.bottoms.map (fun r => r.1) ++
        (if closes.isEmpty = false ∧
            ((compute_dm_signals closes).2.2.1 = true ∨ (compute_dm_signals closes).2.2.2 = true) then
          [tk] else []) := by
  rw [processTicker]
  by_cases he : closes.isEmpty
  · rw [if_pos he]
    simp [he]
  · rw [if_neg he]
    dsimp only
    by_cases hbot : (compute_dm_signals closes).2.2.1 || (compute_dm_signals closes).2.2.2
    · rw [if_pos hbot]
      by_cases htop : (compute_dm_signals closes).1 || (compute_dm_signals closes).2.1
      · rw [if_pos htop]
        simp only [Bool.or_eq_true] at hbot
        simp [he, hbot]
      · rw [if_neg htop]
        simp only [Bool.or_eq_true] at hbot
        simp [he, hbot]
    · by_cases htop : (compute_dm_signals closes).1 || (compute_dm_signals closes).2.1
      · rw [if_pos htop, if_neg hbot]
        simp only [Bool.or_eq_true, not_or] at hbot
        simp [he, hbot.1, hbot.2]
      · rw [if_neg htop, if_neg hbot]
        simp only [Bool.or_eq_true, not_or] at hbot
        simp [he, hbot.1, hbot.2]

lemma processTicker_counts (smap imap : List (String × String)) (label : String)
    (st : ScanOutput) (tk : String) (closes : List ℚ)
    (h1 : (st.topCounts.map Prod.snd).sum = st.tops.length)
    (h2 : (st.botCounts.map Prod.snd).sum = st.bottoms.length) :
    (((processTicker smap imap label st tk closes).topCounts.map Prod.snd).sum
      = (processTicker smap imap label st tk closes).tops.length) ∧
    (((processTicker smap imap label st tk closes).botCounts.map Prod.snd).sum
      = (processTicker smap imap label st tk closes).bottoms.length) := by
  rw [processTicker]
  by_cases he : closes.isEmpty
  · rw [if_pos he]
    exact ⟨h1, h2⟩
  · rw [if_neg he]
    dsimp only
    by_cases htop : (compute_dm_signals closes).1 || (compute_dm_signals closes).2.1
    · rw [if_pos htop]
      by_cases hbot : (compute_dm_signals closes).2.2.1 || (compute_dm_signals closes).2.2.2
      · rw [if_pos hbot]
        constructor <;> simp [incr_sum, h1, h2]
      · rw [if_neg hbot]
        constructor <;> simp [incr_sum, h1, h2]
    · rw [if_neg htop]
      by_cases hbot : (compute_dm_signals closes).2.2.1 || (compute_dm_signals closes).2.2.2
      · rw [if_pos hbot]
        constructor <;> simp [incr_sum, h1, h2]
      · rw [if_neg hbot]
        exact ⟨h1, h2⟩

lemma scanFold_counts (smap imap : List (String × String)) (label : String) :
    ∀ (data : List (String × List ℚ)) (st : ScanOutput),
      (st.topCounts.map Prod.snd).sum = st.tops.length →
      (st.botCounts.map Prod.snd).sum = st.bottoms.length →
      (((data.foldl (fun st p => processTicker smap imap label st p.1 p.2) st).topCounts.map
          Prod.snd).sum
        = (data.foldl (fun st p => processTicker smap imap label st p.1 p.2) st).tops.length) ∧
      (((data.foldl (fun st p => processTicker smap imap label st p.1 p.2) st).botCounts.map
          Prod.snd).sum
        = (data.foldl (fun st p => processTicker smap imap label st p.1 p.2) st).bottoms.length)
  | [], st, h1, h2 => ⟨h1, h2⟩
  | d :: rest, st, h1, h2 => by
    rw [List.foldl_cons]
    have h := processTicker_counts smap imap label st d.1 d.2 h1 h2
    exact scanFold_counts smap imap label rest _ h.1 h.2

/-- Claim C8: in every `scan_timeframe` result, the sector tally of
each bucket sums to the number of match records in that bucket. -/
theorem claim_C8 (smap imap : List (String × String)) (label : String)
    (data : List (String × List ℚ)) :
    (((scan_timeframe smap imap label data).topCounts.map Prod.snd).sum
      = (scan_timeframe smap imap label data).tops.length) ∧
    (((scan_timeframe smap imap label data).botCounts.map Prod.snd).sum
      = (scan_timeframe smap imap label data).bottoms.length) := by
  have h := scanFold_counts smap imap label data ⟨[], [], [], []⟩ rfl rfl
  rw [scan_timeframe]
  dsimp only
  rw [length_sortLe, length_sortLe]
  exact h

lemma dm_not_both (closes : List ℚ) :
    ¬ (((compute_dm_signals closes).1 = true ∨ (compute_dm_signals closes).2.1 = true) ∧
       ((compute_dm_signals closes).2.2.1 = true ∨ (compute_dm_signals closes).2.2.2 = true)) := by
  rintro ⟨ht, hb⟩
  have hx := (dm_exclusive closes).1 ht
  rcases hb with hb | hb
  · rw [hx.1] at hb
    exact Bool.false_ne_true hb
  · rw [hx.2] at hb
    exact Bool.false_ne_true hb

lemma scanFold_disjoint (smap imap : List (String × String)) (label : String) :
    ∀ (data : List (String × List ℚ)) (st : ScanOutput),
      (data.map Prod.fst).Nodup →
      (∀ t ∈ data.map Prod.fst,
        t ∉ st.tops.map (fun r => r.1) ∧ t ∉ st.bottoms.map (fun r => r.1)) →
      (∀ t, t ∈ st.tops.map (fun r => r.1) → t ∉ st.bottoms.map (fun r => r.1)) →
      ∀ t, t ∈ ((data.foldl (fun st p => processTicker smap imap label st p.1 p.2) st).tops.map
          (fun r => r.1)) →
        t ∉ ((data.foldl (fun st p => processTicker smap imap label st p.1 p.2) st).bottoms.map
          (fun r => r.1))
  | [], st, _hnd, _hfresh, hdisj => hdisj
  | d :: rest, st, hnd, hfresh, hdisj => by
    rw [List.foldl_cons]
    have hndrest : (rest.map Prod.fst).Nodup := by
      rw [List.map_cons, List.nodup_cons] at hnd
      exact hnd.2
    have hheadfresh : d.1 ∉ rest.map Prod.fst := by
      rw [List.map_cons, List.nodup_cons] at hnd
      exact hnd.1
    have hdfresh := hfresh d.1 (by simp)
    have hcaseT : ∀ t, t ∈ (processTicker smap imap label st d.1 d.2).tops.map (fun r => r.1) →
        t ∈ st.tops.map (fun r => r.1) ∨
          (t = d.1 ∧
            ((compute_dm_signals d.2).1 = true ∨ (compute_dm_signals d.2).2.1 = true)) := by
      intro t ht
      rw [processTicker_topNames, List.mem_append] at ht
      rcases ht with ht | ht
      · exact Or.inl ht
      · by_cases hq : d.2.isEmpty = false ∧
            ((compute_dm_signals d.2).1 = true ∨ (compute_dm_signals d.2).2.1 = true)
        · rw [if_pos hq] at ht
          simp at ht
          exact Or.inr ⟨ht, hq.2⟩
        · rw [if_neg hq] at ht
          simp at ht
    have hcaseB : ∀ t, t ∈ (processTicker smap imap label st d.1 d.2).bottoms.map (fun r => r.1) →
        t ∈ st.bottoms.map (fun r => r.1) ∨
          (t = d.1 ∧
            ((compute_dm_signals d.2).2.2.1 = true ∨ (compute_dm_signals d.2).2.2.2 = true)) := by
      intro t ht
      rw [processTicker_botNames, List.mem_append] at ht
      rcases ht with ht | ht
      · exact Or.inl ht
      · by_cases hq : d.2.isEmpty = false ∧
            ((compute_dm_signals d.2).2.2.1 = true ∨ (compute_dm_signals d.2).2.2.2 = true)
        · rw [if_pos hq] at ht
          simp at ht
          exact Or.inr ⟨ht, hq.2⟩
        · rw [if_neg hq] at ht
          simp at ht
    refine scanFold_disjoint smap imap label rest _ hndrest ?_ ?_
    · intro t ht
      have htne : t ≠ d.1 := fun hEq => hheadfresh (hEq ▸ ht)
      have hf := hfresh t (by simp [ht])
      constructor
      · intro hc
        rcases hcaseT t hc with hc' | hc'
        · exact hf.1 hc'
        · exact htne hc'.1
      · intro hc
        rcases hcaseB t hc with hc' | hc'
        · exact hf.2 hc'
        · exact htne hc'.1
    · intro t ht hbotmem
      rcases hcaseT t ht with ht' | ht'
      · rcases hcaseB t hbotmem with hb' | hb'
        · exact hdisj t ht' hb'
        · rw [hb'.1] at ht'
          exact hdfresh.1 ht'
      · rcases hcaseB t hbotmem with hb' | hb'
        · rw [ht'.1] at hb'
          exact hdfresh.2 hb'
        · exact dm_not_both d.2 ⟨ht'.2, hb'.2⟩

/-- Claim C10: `compute_dm_signals` never sets a top flag and a bottom
flag simultaneously, and consequently no ticker appears in both the
Tops and Bottoms buckets of one `scan_timeframe` result. -/
theorem claim_C10 :
    (∀ close : List ℚ,
      (((compute_dm_signals close).1 = true ∨ (compute_dm_signals close).2.1 = true) →
        (compute_dm_signals close).2.2.1 = false ∧ (compute_dm_signals close).2.2.2 = false) ∧
      (((compute_dm_signals close).2.2.1 = true ∨ (compute_dm_signals close).2.2.2 = true) →
        (compute_dm_signals close).1 = false ∧ (compute_dm_signals close).2.1 = false)) ∧
    (∀ (smap imap : List (String × String)) (label : String)
        (data : List (String × List ℚ)), (data.map Prod.fst).Nodup →
      ∀ t, t ∈ (scan_timeframe smap imap label data).tops.map (fun r => r.1) →
        t ∉ (scan_timeframe smap imap label data).bottoms.map (fun r => r.1)) := by
  constructor
  · exact dm_exclusive
  · intro smap imap label data hnd t ht hb
    rw [scan_timeframe] at ht hb
    dsimp only at ht hb
    rw [List.mem_map] at ht hb
    obtain ⟨r, hr, hrt⟩ := ht
    obtain ⟨r', hr', hrb⟩ := hb
    rw [mem_sortLe] at hr hr'
    have ht' : t ∈ (data.foldl (fun st p => processTicker smap imap label st p.1 p.2)
        (⟨[], [], [], []⟩ : ScanOutput)).tops.map (fun r => r.1) :=
      List.mem_map.mpr ⟨r, hr, hrt⟩
    have hb' : t ∈ (data.foldl (fun st p => processTicker smap imap label st p.1 p.2)
        (⟨[], [], [], []⟩ : ScanOutput)).bottoms.map (fun r => r.1) :=
      List.mem_map.mpr ⟨r', hr', hrb⟩
    exact scanFold_disjoint smap imap label data ⟨[], [], [], []⟩ hnd
      (by intro t _ht; simp) (by intro t ht'; simp at ht') t ht' hb'

/-- Claim C10 witness: the flag-level exclusion and the bucket-level
exclusion applied to a concrete 20-bar series that triggers `DM9 Top`. -/
theorem claim_C10_witness :
    ((compute_dm_signals [0, 0, 0, 0, 0, 0, 0, 0, 0, 0, 0, 1, 2, 3, 4, 5, 6, 7, 8, 9]).2.2.1 = false ∧
     (compute_dm_signals [0, 0, 0, 0, 0, 0, 0, 0, 0, 0, 0, 1, 2, 3, 4, 5, 6, 7, 8, 9]).2.2.2 = false) ∧
    "AAA" ∉ ((scan_timeframe [] [] "1W"
        [("AAA", [0, 0, 0, 0, 0, 0, 0, 0, 0, 0, 0, 1, 2, 3, 4, 5, 6, 7, 8, 9])]).bottoms.map
      (fun r => r.1)) :=
  ⟨(claim_C10.1 [0, 0, 0, 0, 0, 0, 0, 0, 0, 0, 0, 1, 2, 3, 4, 5, 6, 7, 8, 9]).1
      (Or.inl (by decide)),
   claim_C10.2 [] [] "1W" [("AAA", [0, 0, 0, 0, 0, 0, 0, 0, 0, 0, 0, 1, 2, 3, 4, 5, 6, 7, 8, 9])]
      (by decide) "AAA" (by decide)⟩

lemma processTicker_tops_empty_st (smap imap : List (String × String)) (label : String)
    (tk : String) (closes : List ℚ) (h : ¬ closes.isEmpty) :
    (processTicker smap imap label ⟨[], [], [], []⟩ tk closes).tops =
      if ((compute_dm_signals closes).1 = true ∨ (compute_dm_signals closes).2.1 = true) then
        [(tk, closes.getLastD 0,
          (if (compute_dm_signals closes).2.1 = true then "DM13 Top" else "DM9 Top"),
          (if label = "Sector" then mapGet smap tk "Unknown" else mapGet imap tk "Unknown"))]
      else [] := by
  rw [processTicker, if_neg h]
  dsimp only
  by_cases htop : (compute_dm_signals closes).1 || (compute_dm_signals closes).2.1
  · rw [if_pos htop]
    have htop' := (Bool.or_eq_true _ _).mp htop
    by_cases hbot : (compute_dm_signals closes).2.2.1 || (compute_dm_signals closes).2.2.2
    · rw [if_pos hbot]
      simp [htop']
    · rw [if_neg hbot]
      simp [htop']
  · rw [if_neg htop]
    have htop' := (not_or.mp (fun hc => htop ((Bool.or_eq_true _ _).mpr hc)))
    by_cases hbot : (compute_dm_signals closes).2.2.1 || (compute_dm_signals closes).2.2.2
    · rw [if_pos hbot]
      simp [htop'.1, htop'.2]
    · rw [if_neg hbot]
      simp [htop'.1, htop'.2]

lemma processTicker_bots_empty_st (smap imap : List (String × String)) (label : String)
    (tk : String) (closes : List ℚ) (h : ¬ closes.isEmpty) :
    (processTicker smap imap label ⟨[], [], [], []⟩ tk closes).bottoms =
      if ((compute_dm_signals closes).2.2.1 = true ∨ (compute_dm_signals closes).2.2.2 = true) then
        [(tk, closes.getLastD 0,
          (if (compute_dm_signals closes).2.2.2 = true then "DM13 Bot" else "DM9 Bot"),
          (if label = "Sector" then mapGet smap tk "Unknown" else mapGet imap tk "Unknown"))]
      else [] := by
  rw [processTicker, if_neg h]
  dsimp only
  by_cases hbot : (compute_dm_signals closes).2.2.1 || (compute_dm_signals closes).2.2.2
  · have hbot' := (Bool.or_eq_true _ _).mp hbot
    by_cases htop : (compute_dm_signals closes).1 || (compute_dm_signals closes).2.1
    · rw [if_pos htop, if_pos hbot]
      simp [hbot']
    · rw [if_neg htop, if_pos hbot]
      simp [hbot']
  · have hbot' := (not_or.mp (fun hc => hbot ((Bool.or_eq_true _ _).mpr hc)))
    by_cases htop : (compute_dm_signals closes).1 || (compute_dm_signals closes).2.1
    · rw [if_pos htop, if_neg hbot]
      simp [hbot'.1, hbot'.2]
    · rw [if_neg htop, if_neg hbot]
      simp [hbot'.1, hbot'.2]

/-- Claim C5 counterexample: a weekly scan over a single 20-bar series
whose signal exists only thanks to the most recent bar.  The scan
reports the `DM9 Top` computed from the full series, while the series
with its most recent bar dropped yields no signal at all — so the
evaluator is not applied to the dropped series, whatever the run-day
predicate says. -/
theorem claim_C5_counterexample :
    (scan_timeframe [] [] "1W"
        [("AAA", [0, 0, 0, 0, 0, 0, 0, 0, 0, 0, 0, 1, 2, 3, 4, 5, 6, 7, 8, 9])]).tops
      = [("AAA", 9, "DM9 Top", "Unknown")] ∧
    compute_dm_signals
        (List.dropLast [0, 0, 0, 0, 0, 0, 0, 0, 0, 0, 0, 1, 2, 3, 4, 5, 6, 7, 8, 9])
      = (false, false, false, false) := by
  decide

/-- Claim C5 (amended): `scan_timeframe` never drops the most recent
bar — on every timeframe label, weekly included, the DeMark evaluator
is applied to each fetched series unmodified, and the matches are
exactly those of `compute_dm_signals` on the full series (the
run-day-of-week predicate `is_friday_after_close` defined at
src/main.py line 41 is never consulted). -/
theorem claim_C5 (smap imap : List (String × String)) (label : String)
    (tk : String) (closes : List ℚ) (h : closes ≠ []) :
    (scan_timeframe smap imap label [(tk, closes)]).tops.map (fun r => r.1) =
      (if (compute_dm_signals closes).1 = true ∨ (compute_dm_signals closes).2.1 = true then
        [tk] else []) ∧
    (scan_timeframe smap imap label [(tk, closes)]).bottoms.map (fun r => r.1) =
      (if (compute_dm_signals closes).2.2.1 = true ∨ (compute_dm_signals closes).2.2.2 = true then
        [tk] else []) := by
  have h' : ¬ closes.isEmpty := by simpa [List.isEmpty_iff] using h
  rw [scan_timeframe]
  dsimp only [List.foldl]
  rw [processTicker_tops_empty_st smap imap label tk closes h',
    processTicker_bots_empty_st smap imap label tk closes h']
  constructor
  · by_cases hc : (compute_dm_signals closes).1 = true ∨ (compute_dm_signals closes).2.1 = true
    · rw [if_pos hc, if_pos hc]
      rfl
    · rw [if_neg hc, if_neg hc]
      rfl
  · by_cases hc : (compute_dm_signals closes).2.2.1 = true ∨ (compute_dm_signals closes).2.2.2 = true
    · rw [if_pos hc, if_pos hc]
      rfl
    · rw [if_neg hc, if_neg hc]
      rfl

/-- Claim C5 witness: the amended theorem applied to the concrete
weekly scan of the counterexample's series. -/
theorem claim_C5_witness :
    (scan_timeframe [] [] "1W"
        [("AAA", [0, 0, 0, 0, 0, 0, 0, 0, 0, 0, 0, 1, 2, 3, 4, 5, 6, 7, 8, 9])]).tops.map
        (fun r => r.1) =
      (if (compute_dm_signals
            [0, 0, 0, 0, 0, 0, 0, 0, 0, 0, 0, 1, 2, 3, 4, 5, 6, 7, 8, 9]).1 = true ∨
          (compute_dm_signals
            [0, 0, 0, 0, 0, 0, 0, 0, 0, 0, 0, 1, 2, 3, 4, 5, 6, 7, 8, 9]).2.1 = true then
        ["AAA"] else []) ∧
    (scan_timeframe [] [] "1W"
        [("AAA", [0, 0, 0, 0, 0, 0, 0, 0, 0, 0, 0, 1, 2, 3, 4, 5, 6, 7, 8, 9])]).bottoms.map
        (fun r => r.1) =
      (if (compute_dm_signals
            [0, 0, 0, 0, 0, 0, 0, 0, 0, 0, 0, 1, 2, 3, 4, 5, 6, 7, 8, 9]).2.2.1 = true ∨
          (compute_dm_signals
            [0, 0, 0, 0, 0, 0, 0, 0, 0, 0, 0, 1, 2, 3, 4, 5, 6, 7, 8, 9]).2.2.2 = true then
        ["AAA"] else []) :=
  claim_C5 [] [] "1W" "AAA" [0, 0, 0, 0, 0, 0, 0, 0, 0, 0, 0, 1, 2, 3, 4, 5, 6, 7, 8, 9]
    (by decide)

lemma foldl_max_lt (c : ℚ) : ∀ (l : List ℚ) (a : ℚ),
    (l.foldl max a < c ↔ (a < c ∧ ∀ x ∈ l, x < c))
  | [], a => by simp
  | b :: t, a => by
    rw [List.foldl_cons, foldl_max_lt c t (max a b)]
    simp only [max_lt_iff, List.forall_mem_cons]
    tauto

lemma listMax_lt {l : List ℚ} (h : l ≠ []) (c : ℚ) :
    (listMax l < c ↔ ∀ x ∈ l, x < c) := by
  match l with
  | a :: t =>
    show (a :: t).foldl max a < c ↔ _
    rw [foldl_max_lt]
    simp only [List.forall_mem_cons]
    tauto

lemma getD_drop (l : List ℤ) (k j : ℕ) (h : k + j < l.length) :
    (l.drop k).getD j 0 = l.getD (k + j) 0 := by
  rw [List.getD_eq_getElem _ _ (by rw [List.length_drop]; omega),
    List.getD_eq_getElem _ _ h, List.getElem_drop l]

lemma getLastD_eq_getD (l : List ℚ) (_h : l ≠ []) :
    l.getLastD 0 = l.getD (l.length - 1) 0 := by
  rw [List.getLastD_eq_getLast?, List.getLast?_eq_getElem? l, List.getD_eq_getElem?_getD l]

lemma window_length (close : List ℚ) (h : 35 ≤ close.length) :
    ((close.drop (close.length - 31)).take 30).length = 30 := by
  rw [List.length_take, List.length_drop]
  omega

lemma window_getD (close : List ℚ) (h : 35 ≤ close.length) {j : ℕ} (hj : j < 30) :
    ((close.drop (close.length - 31)).take 30).getD j 0 =
      close.getD (close.length - 31 + j) 0 := by
  rw [List.getD_eq_getElem _ _ (by rw [window_length close h]; exact hj),
    List.getD_eq_getElem _ _ (by omega : close.length - 31 + j < close.length),
    List.getElem_take (close.drop (close.length - 31)), List.getElem_drop close]

lemma window_lt_iff (close : List ℚ) (h : 35 ≤ close.length) (c : ℚ) :
    ((∀ x ∈ (close.drop (close.length - 31)).take 30, x < c) ↔
      (∀ j, j < 30 → close.getD (close.length - 31 + j) 0 < c)) := by
  constructor
  · intro hall j hj
    rw [← window_getD close h hj,
      List.getD_eq_getElem _ _ (by rw [window_length close h]; exact hj)]
    exact hall _ (List.getElem_mem _)
  · intro hidx x hx
    rw [List.mem_iff_getElem] at hx
    obtain ⟨i, hi, rfl⟩ := hx
    have hi30 : i < 30 := by rw [window_length close h] at hi; exact hi
    rw [← List.getD_eq_getElem _ 0 hi, window_getD close h hi30]
    exact hidx i hi30

lemma breakout_iff (close : List ℚ) (h : 35 ≤ close.length) :
    ((listMax ((close.drop (close.length - 31)).take 30) < close.getLastD 0) ↔
      (∀ j, j < 30 →
        close.getD (close.length - 31 + j) 0 < close.getD (close.length - 1) 0)) := by
  have hne : (close.drop (close.length - 31)).take 30 ≠ [] := by
    intro hc
    have := congrArg List.length hc
    rw [window_length close h] at this
    simp at this
  have hnecl : close ≠ [] := by
    intro hc
    rw [hc] at h
    simp at h
  rw [getLastD_eq_getD close hnecl, listMax_lt hne, window_lt_iff close h]

lemma upDays_length (close : List ℚ) : (upDays close).length = close.length := by
  rw [upDays, List.length_map, List.length_range]

lemma upDays_getD (close : List ℚ) {i : ℕ} (hi : i < close.length) :
    (upDays close).getD i 0 =
      if i = 0 then 0
      else if close.getD (i - 1) 0 < close.getD i 0 then 1 else 0 := by
  rw [upDays, getD_map_range _ hi]

lemma sum_le_len (l : List ℤ) (h : ∀ x ∈ l, x ≤ 1) : l.sum ≤ (l.length : ℤ) := by
  induction l with
  | nil => simp
  | cons a t ih =>
    rw [List.sum_cons, List.length_cons]
    have ha := h a (by simp)
    have ht := ih (fun x hx => h x (by simp [hx]))
    push_cast
    omega

lemma all_ones_of_sum (l : List ℤ) (h01 : ∀ x ∈ l, x = 0 ∨ x = 1)
    (hs : (l.length : ℤ) ≤ l.sum) : ∀ x ∈ l, x = 1 := by
  induction l with
  | nil => simp
  | cons a t ih =>
    rw [List.sum_cons, List.length_cons] at hs
    have ha := h01 a (by simp)
    have htb := sum_le_len t (fun x hx => by rcases h01 x (by simp [hx]) with h | h <;> omega)
    have ha1 : a = 1 := by push_cast at hs; omega
    have hts : (t.length : ℤ) ≤ t.sum := by push_cast at hs ⊢; omega
    intro x hx
    rcases List.mem_cons.mp hx with rfl | hx
    · exact ha1
    · exact ih (fun y hy => h01 y (by simp [hy])) hts x hx

lemma sum_of_all_ones (l : List ℤ) (h : ∀ x ∈ l, x = 1) : l.sum = (l.length : ℤ) := by
  induction l with
  | nil => simp
  | cons a t ih =>
    rw [List.sum_cons, List.length_cons, h a (by simp), ih (fun y hy => h y (by simp [hy]))]
    push_cast
    omega

lemma last5_length (close : List ℚ) (h : 35 ≤ close.length) :
    ((upDays close).drop (close.length - 5)).length = 5 := by
  rw [List.length_drop, upDays_length]
  omega

lemma last5_zeroOne (close : List ℚ) :
    ∀ x ∈ (upDays close).drop (close.length - 5), x = 0 ∨ x = 1 := by
  intro x hx
  have hm := List.mem_of_mem_drop hx
  rw [upDays, List.mem_map] at hm
  obtain ⟨i, _, rfl⟩ := hm
  split
  · exact Or.inl rfl
  · split
    · exact Or.inr rfl
    · exact Or.inl rfl

lemma momentum_iff (close : List ℚ) (h : 35 ≤ close.length) :
    ((4 < ((upDays close).drop (close.length - 5)).sum) ↔
      (∀ i, i < close.length → close.length - 5 ≤ i →
        close.getD (i - 1) 0 < close.getD i 0)) := by
  have hdlen := last5_length close h
  have h01 := last5_zeroOne close
  have hud : ∀ k, k < 5 →
      ((upDays close).drop (close.length - 5)).getD k 0 =
        (upDays close).getD (close.length - 5 + k) 0 := by
    intro k hk
    exact getD_drop (upDays close) (close.length - 5) k (by rw [upDays_length]; omega)
  constructor
  · intro hsum i hi1 hi2
    have hall : ∀ x ∈ (upDays close).drop (close.length - 5), x = 1 := by
      refine all_ones_of_sum _ h01 ?_
      rw [hdlen]
      omega
    have hk : i - (close.length - 5) < 5 := by omega
    have hmem :
        ((upDays close).drop (close.length - 5)).getD (i - (close.length - 5)) 0 = 1 := by
      rw [List.getD_eq_getElem _ _ (by rw [hdlen]; exact hk)]
      exact hall _ (List.getElem_mem _)
    rw [hud _ hk] at hmem
    have hidx : close.length - 5 + (i - (close.length - 5)) = i := by omega
    rw [hidx, upDays_getD close hi1, if_neg (by omega : ¬ i = 0)] at hmem
    by_contra hc
    rw [if_neg hc] at hmem
    exact absurd hmem (by decide)
  · intro hidx
    have hall : ∀ x ∈ (upDays close).drop (close.length - 5), x = 1 := by
      intro x hx
      rw [List.mem_iff_getElem] at hx
      obtain ⟨k, hklt, rfl⟩ := hx
      have hk5 : k < 5 := by rw [hdlen] at hklt; exact hklt
      rw [← List.getD_eq_getElem _ 0 hklt, hud _ hk5,
        upDays_getD close (by omega : close.length - 5 + k < close.length),
        if_neg (by omega : ¬ close.length - 5 + k = 0),
        if_pos (hidx _ (by omega) (by omega))]
    have := sum_of_all_ones _ hall
    rw [hdlen] at this
    omega

/-- Claim C4: `compute_wyckoff_signals` returns `false` on series
shorter than 35; on longer series it returns `true` iff the last close
strictly exceeds every one of the 30 closes immediately preceding it
and each of the last 5 bars closes strictly above the bar before it. -/
theorem claim_C4 (close : List ℚ) :
    (close.length < 35 → compute_wyckoff_signals close = false) ∧
    (35 ≤ close.length →
      (compute_wyckoff_signals close = true ↔
        ((∀ j, j < 30 →
            close.getD (close.length - 31 + j) 0 < close.getD (close.length - 1) 0) ∧
         (∀ i, i < close.length → close.length - 5 ≤ i →
            close.getD (i - 1) 0 < close.getD i 0)))) := by
  constructor
  · intro h
    rw [compute_wyckoff_signals, if_pos h]
  · intro h
    rw [compute_wyckoff_signals, if_neg (by omega : ¬ close.length < 35)]
    dsimp only
    rw [Bool.and_eq_true, decide_eq_true_eq, decide_eq_true_eq,
      breakout_iff close h, momentum_iff close h]

/-- Claim C4 witness: both branches of the theorem at concrete inputs —
the empty series for the short branch and a 35-bar breakout-plus-streak
series, shown to satisfy both sides of the equivalence. -/
theorem claim_C4_witness :
    compute_wyckoff_signals [] = false ∧
    compute_wyckoff_signals (List.replicate 30 (-10) ++ [-6, -5, -4, 0, 1]) = true :=
  ⟨(claim_C4 []).1 (by decide),
   ((claim_C4 (List.replicate 30 (-10) ++ [-6, -5, -4, 0, 1])).2 (by decide)).mpr
     ⟨by decide, by decide⟩⟩

lemma wyckoffStep_eq (smap imap : List (String × String)) (res : List WRow) (tk : String)
    (closes : List ℚ) :
    wyckoffStep smap imap res tk closes =
      res ++ (if (hasKey smap tk = true ∧ closes.isEmpty = false ∧
          compute_wyckoff_signals closes = true) then
        [(tk, closes.getLastD 0, mapGet smap tk "Unknown", mapGet imap tk "Unknown",
          ((closes.getLastD 0 - closes.getD (closes.length - 2) 0) /
            closes.getD (closes.length - 2) 0) * 100)]
      else []) := by
  rw [wyckoffStep]
  by_cases h1 : hasKey smap tk = true
  · by_cases h2 : closes.isEmpty
    · simp [h1, h2]
    · by_cases h3 : compute_wyckoff_signals closes = true
      · simp [h1, h2, h3]
      · simp [h1, h2, h3]
  · simp [h1]

lemma mem_wyckoffStep_nil (smap imap : List (String × String)) (tk : String)
    (closes : List ℚ) (row : WRow) :
    (row ∈ wyckoffStep smap imap [] tk closes ↔
      (hasKey smap tk = true ∧ closes.isEmpty = false ∧
        compute_wyckoff_signals closes = true ∧
        row = (tk, closes.getLastD 0, mapGet smap tk "Unknown", mapGet imap tk "Unknown",
          ((closes.getLastD 0 - closes.getD (closes.length - 2) 0) /
            closes.getD (closes.length - 2) 0) * 100))) := by
  rw [wyckoffStep_eq]
  by_cases hc : (hasKey smap tk = true ∧ closes.isEmpty = false ∧
      compute_wyckoff_signals closes = true)
  · rw [if_pos hc]
    simp only [List.nil_append, List.mem_singleton]
    constructor
    · intro h
      exact ⟨hc.1, hc.2.1, hc.2.2, h⟩
    · intro h
      exact h.2.2.2
  · rw [if_neg hc]
    simp only [List.append_nil, List.not_mem_nil, false_iff]
    rintro ⟨hh1, hh2, hh3, _⟩
    exact hc ⟨hh1, hh2, hh3⟩

lemma mem_wyckoffFold (smap imap : List (String × String)) :
    ∀ (data : List (String × List ℚ)) (acc : List WRow) (row : WRow),
      (row ∈ data.foldl (fun r p => wyckoffStep smap imap r p.1 p.2) acc ↔
        row ∈ acc ∨ ∃ p ∈ data, row ∈ wyckoffStep smap imap [] p.1 p.2)
  | [], acc, row => by simp
  | d :: rest, acc, row => by
    rw [List.foldl_cons, mem_wyckoffFold smap imap rest _ row]
    have hstep : row ∈ wyckoffStep smap imap acc d.1 d.2 ↔
        row ∈ acc ∨ row ∈ wyckoffStep smap imap [] d.1 d.2 := by
      rw [wyckoffStep_eq smap imap acc, wyckoffStep_eq smap imap []]
      simp [List.mem_append]
    rw [hstep]
    constructor
    · rintro ((h | h) | h)
      · exact Or.inl h
      · exact Or.inr ⟨d, by simp, h⟩
      · obtain ⟨p, hp, hrow⟩ := h
        exact Or.inr ⟨p, by simp [hp], hrow⟩
    · rintro (h | ⟨p, hp, hrow⟩)
      · exact Or.inl (Or.inl h)
      · rcases List.mem_cons.mp hp with rfl | hp
        · exact Or.inl (Or.inr hrow)
        · exact Or.inr ⟨p, hp, hrow⟩

/-- Claim C6 counterexample: a concrete matched series whose
second-to-last close is `0`.  The ticker is not skipped: it appears in
the Wyckoff scan results (numpy float division by zero does not raise,
so the surrounding `except` never fires; the embedded total ℚ division
models the same control flow). -/
theorem claim_C6_counterexample :
    (List.replicate 30 (-10 : ℚ) ++ [-6, -5, -4, 0, 1]).getD
        ((List.replicate 30 (-10 : ℚ) ++ [-6, -5, -4, 0, 1]).length - 2) 0 = 0 ∧
    compute_wyckoff_signals (List.replicate 30 (-10) ++ [-6, -5, -4, 0, 1]) = true ∧
    (wyckoffRows (scan_wyckoff_signals [("AAA", "Tech")] [("AAA", "Soft")]
        (some [("AAA", List.replicate 30 (-10) ++ [-6, -5, -4, 0, 1])]))).map
      (fun r => r.1) = ["AAA"] := by
  refine ⟨by decide, by decide, by decide⟩

/-- Claim C6 (amended): every row emitted by the Wyckoff scan carries
`pct_change = (close[last] − close[last-1]) / close[last-1] × 100` for
its matched series, and a matched ticker is always emitted — also when
`close[last-1] = 0`, since the (float) division never raises; the
zero-divisor case produces a junk percent value instead of a skip. -/
theorem claim_C6 (smap imap : List (String × String)) (data : List (String × List ℚ)) :
    (∀ row ∈ wyckoffRows (scan_wyckoff_signals smap imap (some data)),
      ∃ closes, (row.1, closes) ∈ data ∧ compute_wyckoff_signals closes = true ∧
        row.2.2.2.2 = ((closes.getLastD 0 - closes.getD (closes.length - 2) 0) /
          closes.getD (closes.length - 2) 0) * 100) ∧
    (∀ (tk : String) (closes : List ℚ), hasKey smap tk = true → closes ≠ [] →
      compute_wyckoff_signals closes = true →
      scan_wyckoff_signals smap imap (some [(tk, closes)]) =
        WyckoffReturn.results [(tk, closes.getLastD 0, mapGet smap tk "Unknown",
          mapGet imap tk "Unknown",
          ((closes.getLastD 0 - closes.getD (closes.length - 2) 0) /
            closes.getD (closes.length - 2) 0) * 100)]) := by
  constructor
  · intro row hrow
    have hrow' : row ∈ sortLe wRowLe
        (data.foldl (fun r p => wyckoffStep smap imap r p.1 p.2) []) := hrow
    rw [mem_sortLe, mem_wyckoffFold] at hrow'
    rcases hrow' with hfalse | ⟨p, hp, hrow''⟩
    · exact absurd hfalse (List.not_mem_nil row)
    · rw [mem_wyckoffStep_nil] at hrow''
      obtain ⟨_h1, _h2, h3, hroweq⟩ := hrow''
      refine ⟨p.2, ?_, h3, ?_⟩
      · have hfst : row.1 = p.1 := by rw [hroweq]
        rw [hfst]
        exact (show (p.1, p.2) = p from rfl) ▸ hp
      · rw [hroweq]
  · intro tk closes h1 h2 h3
    have h2' : closes.isEmpty = false := by
      cases closes with
      | nil => exact absurd rfl h2
      | cons a t => rfl
    show WyckoffReturn.results (sortLe wRowLe (wyckoffStep smap imap [] tk closes)) = _
    rw [wyckoffStep_eq, if_pos ⟨h1, h2', h3⟩]
    rfl

/-- Claim C6 witness: the emission branch of the theorem applied to the
counterexample's series, whose prior close is exactly `0`. -/
theorem claim_C6_witness :
    scan_wyckoff_signals [("AAA", "Tech")] [("AAA", "Soft")]
        (some [("AAA", List.replicate 30 (-10) ++ [-6, -5, -4, 0, 1])]) =
      WyckoffReturn.results [("AAA",
        (List.replicate 30 (-10 : ℚ) ++ [-6, -5, -4, 0, 1]).getLastD 0,
        mapGet [("AAA", "Tech")] "AAA" "Unknown",
        mapGet [("AAA", "Soft")] "AAA" "Unknown",
        (((List.replicate 30 (-10 : ℚ) ++ [-6, -5, -4, 0, 1]).getLastD 0 -
            (List.replicate 30 (-10 : ℚ) ++ [-6, -5, -4, 0, 1]).getD
              ((List.replicate 30 (-10 : ℚ) ++ [-6, -5, -4, 0, 1]).length - 2) 0) /
          (List.replicate 30 (-10 : ℚ) ++ [-6, -5, -4, 0, 1]).getD
            ((List.replicate 30 (-10 : ℚ) ++ [-6, -5, -4, 0, 1]).length - 2) 0) * 100)] :=
  (claim_C6 [("AAA", "Tech")] [("AAA", "Soft")]
      [("AAA", List.replicate 30 (-10) ++ [-6, -5, -4, 0, 1])]).2
    "AAA" (List.replicate 30 (-10) ++ [-6, -5, -4, 0, 1]) (by decide) (by decide) (by decide)

/-- Claim C7: with the daily cache absent, `scan_wyckoff_signals`
returns the pair `([], "N/A")` — a different shape from the bare match
list returned on the normal path (here: the empty-cache scan), which is
what the claim's "empty result set" describes. -/
theorem claim_C7 :
    (∀ smap imap : List (String × String),
      scan_wyckoff_signals smap imap none = WyckoffReturn.cacheMissing [] "N/A") ∧
    (∀ smap imap : List (String × String),
      scan_wyckoff_signals smap imap (some []) = WyckoffReturn.results []) :=
  ⟨fun _ _ => rfl, fun _ _ => rfl⟩

end Dashboard
